import Mathlib

/-!
A verification development for the `submitter` and `secret` packages.

The development embeds, as executable Lean definitions,

* `submitter.Handler` with `NewHandler`, `launchCommand`, `supervisor` and
  `waitForQuiet` (`submitter/submitter.go`), and
* `secret.Message` with `Encrypt` and `Decrypt` (`secret/secret.go`).

Every access of `h.processes` in the source happens while `processMutex` is
held, so one critical section is one atomic step of the model.  What the
operating system, the clock, the Go scheduler and the other goroutines decide
is an explicit argument of the step that depends on it.
-/

namespace Submitter

/-! ## Data model -/

/-- Instants and durations, in nanoseconds (`time.Time`, `time.Duration`). -/
abbrev Time := Int

/-- The constant `time.Minute`. -/
def minute : Time := 60 * 1000000000

/-- The error values that the handler hands to its callers. -/
inductive Error where
  /-- The value `errors.New("could not settle")` of `waitForQuiet`. -/
  | couldNotSettle
  /-- The value `errors.New("context closed")` of `waitForQuiet`. -/
  | contextClosed
  /-- The value `ctx.Err()` that `cmd.Start` returns for a cancelled context. -/
  | contextCanceled
  /-- An error of the operating system (pipe creation, process start). -/
  | os (code : Nat)
  deriving DecidableEq, Repr

/-- The run-time faults of the Go runtime that the handler can raise. -/
inductive Fault where
  /-- An index or a slice bound out of range on a slice of length `len`. -/
  | outOfRange (len : Nat)
  deriving DecidableEq, Repr

/-- The part of `os.Process` that the handler uses: the process identifier,
and whether `Kill` has been sent to it. -/
structure Process where
  Pid : Nat
  killSent : Bool
  deriving DecidableEq, Repr

/-- The part of `exec.Cmd` that the handler uses.  `ProcessState` is `none`
(Go `nil`) until the process has exited and `cmd.Wait` has reaped it.  Only
started commands are ever stored, so `Process` is always present. -/
structure Cmd where
  Path : String
  Args : List String
  Process : Process
  ProcessState : Option Nat
  deriving DecidableEq, Repr

/-- A single process, with its creation time alongside it
(`type process struct`). -/
structure process where
  cmd : Cmd
  created : Time
  deriving DecidableEq, Repr

/-- The list of processes (`type processList []*process`). -/
abbrev processList := List process

/-- The configuration (`type Config struct`); `MaxProcessors` is a `uint`. -/
structure Config where
  MaxProcessors : Nat
  DebugMode : Bool
  deriving DecidableEq, Repr

/-- The handler (`type Handler struct`).  `ctxDone` says whether `h.ctx` has
been cancelled, that is whether `h.ctx.Done()` is ready.  `waitMutex` says
whether some goroutine holds the mutex of that name.  `processMutex` does not
appear: all that happens between its `Lock` and `Unlock` is one atomic step. -/
structure Handler where
  config : Config
  ctxDone : Bool
  processes : processList
  waitMutex : Bool := false
  deriving DecidableEq, Repr

/-- The payload `sr map[string]interface` of a submission, as key/value pairs. -/
abbrev Payload := List (String × String)

/-- The goroutines and the process that one `launchCommand` attempt sets off,
in program order. -/
inductive Event where
  /-- The statement `go io.Copy(os.Stderr, stderr)` when `debug`, and
  `go io.Copy(ioutil.Discard, stderr)` otherwise. -/
  | stderrCopy (debug : Bool)
  /-- The statement `go h.readerFunc(stdout)`. -/
  | reader
  /-- The goroutine that encodes the payload to standard input and closes it. -/
  | stdinWriter (sr : Payload)
  /-- A successful `cmd.Start()`: the process `pid` now runs. -/
  | started (pid : Nat)
  /-- The statement `go cmd.Wait()`. -/
  | waiter (pid : Nat)
  deriving DecidableEq, Repr

/-- What the operating system and the clock answer during one attempt of
`launchCommand`: the path that `exec.CommandContext` stores in `cmd.Path` (the
name itself, or the file that the search of `PATH` found for it) and the error
it stores in `cmd.Err` (if that search failed), the error (if any) of each
pipe creation, the reading of `time.Now()`, and the result of starting the
process (its pid or an error). -/
structure LaunchEnv where
  cmdPath : String
  cmdErr : Option Error
  stdoutPipe : Option Error
  stderrPipe : Option Error
  stdinPipe : Option Error
  now : Time
  start : Except Error Nat

/-- How one pass through the body of a polling function ends. -/
inductive Outcome where
  /-- The function returned this `error` value (`none` is Go `nil`). -/
  | ret (err : Option Error)
  /-- The function raised a run-time fault (Go panic). -/
  | fault (f : Fault)
  /-- The function goes around its loop once more. -/
  | again
  deriving DecidableEq, Repr

/-! ## `NewHandler` -/

/-- The handler built by `NewHandler(ctx, cfg, reader)`: an empty process
list and free mutexes.  `ctxDone` is the state of the context that is passed
in. -/
def NewHandler (ctxDone : Bool) (cfg : Config) : Handler :=
  { config := cfg, ctxDone := ctxDone, processes := [], waitMutex := false }

/-! ## `launchCommand` -/

/-- The library call `exec.CommandContext(ctx, name, arg...)` followed by a
successful start as process `pid`: the path `path` that the call resolved for
`name`, argument vector `name :: arg`, no exit status yet. -/
def CommandContext (path name : String) (arg : List String) (pid : Nat) : Cmd :=
  { Path := path, Args := name :: arg,
    Process := { Pid := pid, killSent := false }, ProcessState := none }

/-- The library call `cmd.Start()` of a command made by `exec.CommandContext`:
it returns `cmd.Err` when the lookup of the command failed, then `ctx.Err()`
when the context is already cancelled, and otherwise what the operating
system answers. -/
def cmdStart (ctxDone : Bool) (env : LaunchEnv) : Except Error Nat :=
  match env.cmdErr with
  | some err => .error err
  | none => if ctxDone then .error Error.contextCanceled else env.start

/-- The arguments that `launchCommand` hands to `exec.CommandContext` after
`args[0]`: none `if len(args) == 1`, and `args[1:]` otherwise. -/
def restArgs (args : List String) : List String :=
  if args.length == 1 then [] else args.drop 1

/-- The condition of the `if` in `launchCommand`: the registry is below the
ceiling, or there is no ceiling. -/
def hasRoom (h : Handler) : Prop :=
  h.processes.length < h.config.MaxProcessors ∨ h.config.MaxProcessors = 0

instance (h : Handler) : Decidable (hasRoom h) := by
  unfold hasRoom; infer_instance

/-- One pass through the body of `launchCommand` between `retry:` and the
`return`, run while `processMutex` is held.  It yields how the pass ends, the
handler afterwards, and the goroutines and process it set off. -/
def launchAttempt (h : Handler) (args : List String) (sr : Payload) (env : LaunchEnv) :
    Outcome × Handler × List Event :=
  if h.processes.length < h.config.MaxProcessors || h.config.MaxProcessors == 0 then
    -- both branches of `if len(args) == 1` read `args[0]`; the second also
    -- takes `args[1:]`, and the run time rejects either on an empty list
    match args[0]? with
    | none => (.fault (.outOfRange args.length), h, [])
    | some name =>
      let arg := restArgs args
      match env.stdoutPipe with
      | some err => (.ret (some err), h, [])
      | none =>
        match env.stderrPipe with
        | some err => (.ret (some err), h, [])
        | none =>
          let spawned := [Event.stderrCopy h.config.DebugMode]
          match env.stdinPipe with
          | some err => (.ret (some err), h, spawned)
          | none =>
            let spawned := spawned ++ [Event.reader, Event.stdinWriter sr]
            let created := env.now
            match cmdStart h.ctxDone env with
            | .error err => (.ret (some err), h, spawned)
            | .ok pid =>
              let p : process :=
                { cmd := CommandContext env.cmdPath name arg pid, created := created }
              (.ret none, { h with processes := h.processes ++ [p] },
                spawned ++ [Event.started pid, Event.waiter pid])
  else
    (.again, h, [])

/-- The function `launchCommand`, between its `h.waitMutex.Lock()` and the
deferred unlocks: the caller holds `waitMutex` from the first pass to the
return.  Each pass takes the answers `env i` of the operating system; when pass `i`
ends in `goto retry`, the other goroutines change the handler by `world i`
while `processMutex` is free.  The result is `none` while the call is still
retrying after `fuel` passes. -/
def launchCommand (args : List String) (sr : Payload) (env : Nat → LaunchEnv)
    (world : Nat → Handler → Handler) : Nat → Nat → Handler → Option (Outcome × Handler)
  | 0, _, _ => none
  | fuel + 1, i, h =>
    match launchAttempt h args sr (env i) with
    | (.again, h1, _) => launchCommand args sr env world fuel (i + 1) (world i h1)
    | (out, h1, _) => some (out, h1)

/-! ## `supervisor` -/

/-- The clock readings of one reconciliation pass: `check i` is the value of
`time.Now()` in the test of the `i`-th record, and `since i` the one inside
`time.Since` when the diagnostic of the `i`-th record is printed. -/
structure PassClock where
  check : Nat → Time
  since : Nat → Time

/-- The line `slow processor after %v: pid %d` that the supervisor prints. -/
structure Diagnostic where
  elapsed : Time
  pid : Nat
  deriving DecidableEq, Repr

/-- The body of the `for _, proc := range h.processes` loop of a
reconciliation pass, from record number `i` on: `kept` is the local slice
`processes` and `out` the diagnostics printed so far. -/
def passLoop (clk : PassClock) : Nat → processList → processList → List Diagnostic →
    processList × List Diagnostic
  | _, [], kept, out => (kept, out)
  | i, proc :: rest, kept, out =>
    let kept := if proc.cmd.ProcessState == none then kept ++ [proc] else kept
    let out :=
      if proc.created < clk.check i - minute then
        out ++ [{ elapsed := clk.since i - proc.created, pid := proc.cmd.Process.Pid }]
      else out
    passLoop clk (i + 1) rest kept out

/-- One reconciliation pass of `supervisor` (the code after the `select`),
run while `processMutex` is held: the new handler and what was printed. -/
def supervisorPass (clk : PassClock) (h : Handler) : Handler × List Diagnostic :=
  let r := passLoop clk 0 h.processes [] []
  ({ h with processes := r.1 }, r.2)

/-- The call `proc.cmd.Process.Kill()`. -/
def Kill (proc : process) : process :=
  { proc with cmd := { proc.cmd with Process := { proc.cmd.Process with killSent := true } } }

/-- The `case <-h.ctx.Done()` branch of `supervisor`: every record of the
list is sent `Kill`; `h.processes` itself is not assigned. -/
def supervisorCancel (h : Handler) : Handler :=
  { h with processes := h.processes.map Kill }

/-- Where the supervisor goroutine stands. -/
inductive SupervisorPC where
  /-- It is about to evaluate the `select`. -/
  | atSelect
  /-- It took the `default` case and sleeps before the reconciliation pass. -/
  | sleeping
  /-- It has returned. -/
  | stopped
  deriving DecidableEq, Repr

/-! ## The handler and its goroutines as a transition system -/

/-- The handler together with its supervisor goroutine. -/
structure System where
  h : Handler
  sup : SupervisorPC
  deriving DecidableEq, Repr

/-- The system right after `NewHandler` returns: `go h.supervisor()` has been
issued. -/
def System.init (ctxDone : Bool) (cfg : Config) : System :=
  { h := NewHandler ctxDone cfg, sup := .atSelect }

/-- The process of record number `i` exits with `status` and `cmd.Wait`
records it in `ProcessState`. -/
def reap (i status : Nat) (ps : processList) : processList :=
  ps.modify (fun p => { p with cmd := { p.cmd with ProcessState := some status } }) i

/-- The atomic steps of the goroutines that touch the handler. -/
inductive Action where
  /-- One pass of some `launchCommand` call through its body. -/
  | launch (args : List String) (sr : Payload) (env : LaunchEnv)
  /-- The supervisor evaluates its `select`. -/
  | supSelect
  /-- The supervisor wakes up and runs its reconciliation pass. -/
  | supPass (clk : PassClock)
  /-- The owner of the context cancels it. -/
  | cancel
  /-- A registered process exits and is reaped. -/
  | exit (i status : Nat)

/-- The effect of one atomic step; a step that is not enabled changes nothing. -/
def step (s : System) : Action → System
  | .launch args sr env => { s with h := (launchAttempt s.h args sr env).2.1 }
  | .supSelect =>
    match s.sup with
    | .atSelect =>
      if s.h.ctxDone then { h := supervisorCancel s.h, sup := .stopped }
      else { s with sup := .sleeping }
    | _ => s
  | .supPass clk =>
    match s.sup with
    | .sleeping => { h := (supervisorPass clk s.h).1, sup := .atSelect }
    | _ => s
  | .cancel => { s with h := { s.h with ctxDone := true } }
  | .exit i status => { s with h := { s.h with processes := reap i status s.h.processes } }

/-- The state after an interleaving of atomic steps. -/
def run (s : System) (acts : List Action) : System :=
  acts.foldl step s

/-- The invariant of the transition system: the configuration is the one the
handler was built with, and the registry holds at most `MaxProcessors`
records. -/
def Bounded (cfg : Config) (s : System) : Prop :=
  s.h.config = cfg ∧ s.h.processes.length ≤ cfg.MaxProcessors

/-! ## `waitForQuiet` -/

/-- What one evaluation of the `select` statement of `waitForQuiet` depends on
besides the handler: the time that has passed since `time.After(d)` was
called, and the case that the runtime picks when both channels are ready. -/
structure Select where
  elapsed : Time
  pickAfter : Bool
  deriving DecidableEq, Repr

/-- One pass through the `for` loop of `waitForQuiet`: the `select`, then the
test of `len(h.processes)` under `processMutex`.  The channel `after` is ready
once `d` has elapsed.  The result is `some err` when the pass returns `err`
(`some none` is Go `nil`), and `none` when it sleeps and goes around again. -/
def waitForQuietPoll (d : Time) (sel : Select) (h : Handler) : Option (Option Error) :=
  let afterReady := decide (d ≤ sel.elapsed)
  if afterReady && (!h.ctxDone || sel.pickAfter) then some (some Error.couldNotSettle)
  else if h.ctxDone then some (some Error.contextClosed)
  else if h.processes.length == 0 then some none
  else none

/-- The `for` loop of `waitForQuiet`.  The pass made at step `i` evaluates its
`select` with `sel i`; while the call sleeps after it, the other goroutines
change the handler by `world i`.  The loop itself never writes the handler.
The result is `none` while the loop is still polling after `fuel` steps, and
otherwise the returned error together with the handler at the return. -/
def waitForQuietLoop (d : Time) (sel : Nat → Select) (world : Nat → Handler → Handler) :
    Nat → Nat → Handler → Option (Option Error × Handler)
  | 0, _, _ => none
  | fuel + 1, i, h =>
    match waitForQuietPoll d (sel i) h with
    | some err => some (err, h)
    | none => waitForQuietLoop d sel world fuel (i + 1) (world i h)

/-- The function `waitForQuiet`.  At step `i` the call is in
`h.waitMutex.Lock()`: while another goroutine holds the mutex the call stays
blocked and the other goroutines act by `world i`; once the mutex is free the
call takes it, creates the timer `time.After(d)` and enters its loop, and
the deferred `Unlock` frees the mutex at the return.  `(sel i).elapsed` is the
time since the timer was created, read at the `select` of step `i`.  The
result is `none` while the call has not returned after `fuel` steps. -/
def waitForQuiet (d : Time) (sel : Nat → Select) (world : Nat → Handler → Handler) :
    Nat → Nat → Handler → Option (Option Error × Handler)
  | 0, _, _ => none
  | fuel + 1, i, h =>
    if h.waitMutex then
      waitForQuiet d sel world fuel (i + 1) (world i h)
    else
      match waitForQuietLoop d sel world (fuel + 1) i { h with waitMutex := true } with
      | some (err, h1) => some (err, { h1 with waitMutex := false })
      | none => none

/-- The handler that pass number `k` of a polling call sees when the call
starts on `h` with pass number `i`: the other goroutines have acted
`world i`, ..., `world (i + k - 1)` in between. -/
def stateAt (world : Nat → Handler → Handler) (i : Nat) (h : Handler) : Nat → Handler
  | 0 => h
  | k + 1 => stateAt world (i + 1) (world i h) k

/-! ## Concrete inputs -/

/-- The command is found as `/go/bin/testbin`, the operating system creates
the three pipes and starts the process as `pid`; the clock reads `now`. -/
def envOK (pid : Nat) (now : Time) : LaunchEnv :=
  { cmdPath := "/go/bin/testbin", cmdErr := none,
    stdoutPipe := none, stderrPipe := none, stdinPipe := none, now := now, start := .ok pid }

/-- A record of process `pid`, created at `created`, with the given exit
status. -/
def record (pid : Nat) (created : Time) (state : Option Nat) : process :=
  { cmd := { Path := "/go/bin/testbin", Args := ["testbin"],
             Process := { Pid := pid, killSent := false }, ProcessState := state },
    created := created }

/-- A handler with ceiling `n` whose registry holds one running record. -/
def busyHandler (n : Nat) (ctxDone : Bool) : Handler :=
  { config := { MaxProcessors := n, DebugMode := false }, ctxDone := ctxDone,
    processes := [record 3 0 none] }

/-- A clock that reads `t` throughout a reconciliation pass. -/
def clockAt (t : Time) : PassClock :=
  { check := fun _ => t, since := fun _ => t }

/-- No other goroutine touches the handler. -/
def quietWorld : Nat → Handler → Handler :=
  fun _ h => h

/-- In every pause the worker of the first record exits and is reaped, and the
supervisor runs a reconciliation pass. -/
def reapingWorld : Nat → Handler → Handler :=
  fun _ h =>
    (supervisorPass (clockAt 100000000) { h with processes := reap 0 0 h.processes }).1

/-- A pool with a ceiling of one and one hanging worker registered, while a
`launchCommand` call for one more worker sits in its retry loop: that call
holds `waitMutex`. -/
def waitingPool (ctxDone : Bool) : Handler :=
  { busyHandler 1 ctxDone with waitMutex := true }

/-- The other goroutine of `waitingPool`: in every pause the waiting
`launchCommand` call makes one more pass through its body. -/
def retryingWorld : Nat → Handler → Handler :=
  fun _ h => (launchAttempt h ["testbin"] [] (envOK 12 5)).2.1

end Submitter

namespace Secret

/-! ## Package `secret` -/

/-- One byte. -/
abbrev Byte := Fin 256

/-- The errors that `Encrypt` and `Decrypt` return. -/
inductive Error where
  /-- The `aes.KeySizeError` of `aes.NewCipher` for a key of `len` bytes. -/
  | keySize (len : Nat)
  /-- The random source ended before the nonce was filled (`io.ReadFull`). -/
  | unexpectedEOF
  /-- The value `errors.New("ciphertext is too small")`. -/
  | ciphertextTooSmall
  /-- The error of `gcm.Open`: message authentication failed. -/
  | openFailed
  deriving DecidableEq, Repr

/-- A secret message (`type Message struct`). -/
structure Message where
  value : List Byte
  encrypted : Bool
  deriving DecidableEq, Repr

/-- The function `NewMessage`. -/
def NewMessage (value : List Byte) (encrypted : Bool) : Message :=
  { value := value, encrypted := encrypted }

/-- The method `Value`. -/
def Message.Value (m : Message) : List Byte := m.value

/-- The method `Encrypted`. -/
def Message.Encrypted (m : Message) : Bool := m.encrypted

/-- The zero value `Message{}`. -/
def Message.zero : Message := { value := [], encrypted := false }

/-- The AES-GCM primitive of the Go standard library, which this package
calls and does not implement: `Seal key nonce plaintext` is what
`gcm.Seal(dst, nonce, plaintext, nil)` appends to `dst`, and
`Open key nonce ciphertext` is the result of `gcm.Open(nil, nonce, ciphertext, nil)`,
`none` when authentication fails. -/
structure GCM where
  Seal : List Byte → List Byte → List Byte → List Byte
  Open : List Byte → List Byte → List Byte → Option (List Byte)

/-- The value of `gcm.NonceSize()` for a cipher made by `cipher.NewGCM`. -/
def NonceSize : Nat := 12

/-- The check of `aes.NewCipher(key)`: the key has 16, 24 or 32 bytes. -/
def NewCipher (key : List Byte) : Except Error (List Byte) :=
  if key.length = 16 ∨ key.length = 24 ∨ key.length = 32 then .ok key
  else .error (Error.keySize key.length)

/-- The call `io.ReadFull(rand.Reader, nonce)` for a nonce of `n` bytes, when
the random source can supply the bytes `rand`. -/
def ReadFull (rand : List Byte) (n : Nat) : Except Error (List Byte) :=
  if rand.length < n then .error Error.unexpectedEOF else .ok (rand.take n)

/-- The method `Encrypt`.  `cipher.NewGCM` cannot fail on an AES block. -/
def Message.Encrypt (gcm : GCM) (rand : List Byte) (m : Message) (key : List Byte) :
    Message × Option Error :=
  let m2 := Message.zero
  match NewCipher key with
  | .error err => (m2, some err)
  | .ok c =>
    match ReadFull rand NonceSize with
    | .error err => (m2, some err)
    | .ok nonce =>
      ({ value := nonce ++ gcm.Seal c nonce m.value, encrypted := true }, none)

/-- The method `Decrypt`. -/
def Message.Decrypt (gcm : GCM) (m : Message) (key : List Byte) : Message × Option Error :=
  let m2 := Message.zero
  match NewCipher key with
  | .error err => (m2, some err)
  | .ok c =>
    let ns := NonceSize
    if m.value.length < ns then (m2, some Error.ciphertextTooSmall)
    else
      let nonce := m.value.take ns
      let text := m.value.drop ns
      match gcm.Open c nonce text with
      | none => (m2, some Error.openFailed)
      | some plain => ({ value := plain, encrypted := false }, none)

/-- A toy stand-in for AES-GCM, used to run the definitions on concrete
inputs: sealing appends the first key byte as a tag, opening checks and
removes it. -/
def toyGCM : GCM :=
  { Seal := fun key _ plain => plain ++ key.take 1,
    Open := fun key _ text =>
      if text.drop (text.length - 1) = key.take 1 ∧ 1 ≤ text.length
      then some (text.take (text.length - 1)) else none }

end Secret

/-! # Theorems -/

namespace Submitter

/-! ## Auxiliary facts about the reconciliation pass -/

/-- The loop of a reconciliation pass appends to `kept` the records without an
exit status, and to `out` one line per record that is older than a minute. -/
theorem passLoop_eq (clk : PassClock) :
    ∀ (ps : processList) (i : Nat) (kept : processList) (out : List Diagnostic),
      passLoop clk i ps kept out =
        (kept ++ ps.filter (fun p => p.cmd.ProcessState == none),
         out ++ ((ps.enumFrom i).filter
            (fun ip => decide (ip.2.created < clk.check ip.1 - minute))).map
            (fun ip => { elapsed := clk.since ip.1 - ip.2.created,
                         pid := ip.2.cmd.Process.Pid })) := by
  intro ps
  induction ps with
  | nil => intro i kept out; simp [passLoop]
  | cons p rest ih =>
    intro i kept out
    simp only [passLoop, ih, List.enumFrom_cons, List.filter_cons]
    by_cases h1 : (p.cmd.ProcessState == none) = true <;>
      by_cases h2 : p.created < clk.check i - minute <;>
      simp [h1, h2]

/-- A reconciliation pass leaves the configuration and the context alone. -/
theorem supervisorPass_frame (clk : PassClock) (h : Handler) :
    (supervisorPass clk h).1.config = h.config ∧
      (supervisorPass clk h).1.ctxDone = h.ctxDone := by
  simp [supervisorPass]

/-- The process list after a reconciliation pass. -/
theorem supervisorPass_processes (clk : PassClock) (h : Handler) :
    (supervisorPass clk h).1.processes =
      h.processes.filter (fun p => p.cmd.ProcessState == none) := by
  simp [supervisorPass, passLoop_eq]

/-! ## Auxiliary facts about one attempt of `launchCommand` -/

/-- The four ways in which an attempt can end: no room (retry), a fault on
`args[0]`, an error return that leaves the handler as it was, or a `nil`
return that appends exactly one record. -/
theorem launchAttempt_cases (h : Handler) (args : List String) (sr : Payload)
    (env : LaunchEnv) :
    (¬ (h.processes.length < h.config.MaxProcessors ∨ h.config.MaxProcessors = 0) ∧
        launchAttempt h args sr env = (.again, h, [])) ∨
    ((h.processes.length < h.config.MaxProcessors ∨ h.config.MaxProcessors = 0) ∧
      (args = [] ∧ launchAttempt h args sr env = (.fault (.outOfRange 0), h, [])) ∨
      ((h.processes.length < h.config.MaxProcessors ∨ h.config.MaxProcessors = 0) ∧
        ∃ err ev, launchAttempt h args sr env = (.ret (some err), h, ev) ∧
          ∀ pid, Event.started pid ∉ ev) ∨
      ((h.processes.length < h.config.MaxProcessors ∨ h.config.MaxProcessors = 0) ∧
        ∃ name pid, args[0]? = some name ∧ cmdStart h.ctxDone env = .ok pid ∧
          launchAttempt h args sr env =
            (.ret none,
             { h with processes := h.processes ++
                [{ cmd := CommandContext env.cmdPath name (restArgs args) pid, created := env.now }] },
             [Event.stderrCopy h.config.DebugMode, Event.reader, Event.stdinWriter sr,
              Event.started pid, Event.waiter pid]))) := by
  by_cases hcap : h.processes.length < h.config.MaxProcessors ∨ h.config.MaxProcessors = 0
  · have hc : (decide (h.processes.length < h.config.MaxProcessors) ||
        h.config.MaxProcessors == 0) = true := by simpa using hcap
    right
    cases hargs : args[0]? with
    | none =>
      left
      have hnil : args = [] := by
        cases args with
        | nil => rfl
        | cons a t => simp at hargs
      subst hnil
      exact ⟨hcap, rfl, by simp [launchAttempt, hc]⟩
    | some name =>
      right
      cases h1 : env.stdoutPipe with
      | some err =>
        left; exact ⟨hcap, err, [], by simp [launchAttempt, hc, hargs, h1], by simp⟩
      | none =>
        cases h2 : env.stderrPipe with
        | some err =>
          left; exact ⟨hcap, err, [], by simp [launchAttempt, hc, hargs, h1, h2], by simp⟩
        | none =>
          cases h3 : env.stdinPipe with
          | some err =>
            left
            exact ⟨hcap, err, _, by simp [launchAttempt, hc, hargs, h1, h2, h3]; rfl, by simp⟩
          | none =>
            cases h4 : cmdStart h.ctxDone env with
            | error err =>
              left
              exact ⟨hcap, err, _, by simp [launchAttempt, hc, hargs, h1, h2, h3, h4]; rfl,
                by simp⟩
            | ok pid =>
              right
              refine ⟨hcap, name, pid, rfl, rfl, ?_⟩
              simp [launchAttempt, hc, hargs, h1, h2, h3, h4, restArgs]
  · left
    have hc : (decide (h.processes.length < h.config.MaxProcessors) ||
        h.config.MaxProcessors == 0) = false := by
      simpa using hcap
    exact ⟨hcap, by simp [launchAttempt, hc]⟩

/-- An attempt never changes the configuration or the context. -/
theorem launchAttempt_frame (h : Handler) (args : List String) (sr : Payload)
    (env : LaunchEnv) :
    (launchAttempt h args sr env).2.1.config = h.config ∧
      (launchAttempt h args sr env).2.1.ctxDone = h.ctxDone := by
  rcases launchAttempt_cases h args sr env with
    ⟨_, e⟩ | ⟨_, _, e⟩ | ⟨_, _, _, e, _⟩ | ⟨_, _, _, _, _, e⟩ <;> simp [e]

/-- An attempt either leaves the process list alone or, having found room,
appends one record to it. -/
theorem launchAttempt_processes (h : Handler) (args : List String) (sr : Payload)
    (env : LaunchEnv) :
    (launchAttempt h args sr env).2.1.processes = h.processes ∨
      ((h.processes.length < h.config.MaxProcessors ∨ h.config.MaxProcessors = 0) ∧
        ∃ p, (launchAttempt h args sr env).2.1.processes = h.processes ++ [p]) := by
  rcases launchAttempt_cases h args sr env with
    ⟨_, e⟩ | ⟨_, _, e⟩ | ⟨_, _, _, e, _⟩ | ⟨hcap, name, pid, _, _, e⟩
  · left; simp [e]
  · left; simp [e]
  · left; simp [e]
  · right
    exact ⟨hcap, { cmd := CommandContext env.cmdPath name (restArgs args) pid, created := env.now },
      by rw [e]⟩

/-- The name `args[0]` followed by the remaining arguments is the command
list itself. -/
theorem cons_restArgs (args : List String) (name : String) (h0 : args[0]? = some name) :
    name :: restArgs args = args := by
  cases args with
  | nil => simp at h0
  | cons a t =>
    simp at h0
    subst h0
    cases t with
    | nil => simp [restArgs]
    | cons b u => simp [restArgs]

/-- One unfolding of `launchCommand`: a pass that finds room ends the call
with what the pass yields, and a pass that finds none hands over to the next
pass after the other goroutines have acted. -/
theorem launchCommand_succ (args : List String) (sr : Payload) (env : Nat → LaunchEnv)
    (world : Nat → Handler → Handler) (fuel i : Nat) (h : Handler) :
    launchCommand args sr env world (fuel + 1) i h =
      if hasRoom h then
        some ((launchAttempt h args sr (env i)).1, (launchAttempt h args sr (env i)).2.1)
      else launchCommand args sr env world fuel (i + 1) (world i h) := by
  rcases launchAttempt_cases h args sr (env i) with
    ⟨hno, e⟩ | ⟨hcap, _, e⟩ | ⟨hcap, _, _, e, _⟩ | ⟨hcap, _, _, _, _, e⟩
  · have hno2 : ¬ hasRoom h := hno
    simp [launchCommand, e, hno2]
  · have hcap2 : hasRoom h := hcap
    simp [launchCommand, e, hcap2]
  · have hcap2 : hasRoom h := hcap
    simp [launchCommand, e, hcap2]
  · have hcap2 : hasRoom h := hcap
    simp [launchCommand, e, hcap2]

/-- A call of `launchCommand` that has returned did so in some pass `k`: the
passes before found no room, and pass `k` found room in the handler it saw. -/
theorem launchCommand_some (args : List String) (sr : Payload) (env : Nat → LaunchEnv)
    (world : Nat → Handler → Handler) :
    ∀ (fuel i : Nat) (h : Handler) (out : Outcome) (h1 : Handler),
      launchCommand args sr env world fuel i h = some (out, h1) →
      ∃ k, k < fuel ∧ (∀ j, j < k → ¬ hasRoom (stateAt world i h j)) ∧
        hasRoom (stateAt world i h k) ∧
        (launchAttempt (stateAt world i h k) args sr (env (i + k))).1 = out ∧
        (launchAttempt (stateAt world i h k) args sr (env (i + k))).2.1 = h1 := by
  intro fuel
  induction fuel with
  | zero => intro i h out h1 hret; simp [launchCommand] at hret
  | succ n ih =>
    intro i h out h1 hret
    rw [launchCommand_succ] at hret
    by_cases hcap : hasRoom h
    · simp only [hcap, if_true, Option.some.injEq, Prod.mk.injEq] at hret
      exact ⟨0, Nat.succ_pos _, fun j hj => absurd hj (Nat.not_lt_zero j), hcap, hret.1, hret.2⟩
    · simp only [hcap, if_false] at hret
      obtain ⟨k, hk, hbefore, hroom, ho, hh⟩ := ih (i + 1) (world i h) out h1 hret
      refine ⟨k + 1, Nat.succ_lt_succ hk, ?_, hroom, ?_, ?_⟩
      · intro j hj
        cases j with
        | zero => exact hcap
        | succ j => exact hbefore j (Nat.lt_of_succ_lt_succ hj)
      · have e : i + (k + 1) = i + 1 + k := by omega
        rw [e]; exact ho
      · have e : i + (k + 1) = i + 1 + k := by omega
        rw [e]; exact hh

/-- A call of `launchCommand` does not return while every pass finds the
registry full. -/
theorem launchCommand_none_of_full (args : List String) (sr : Payload)
    (env : Nat → LaunchEnv) (world : Nat → Handler → Handler) :
    ∀ (fuel i : Nat) (h : Handler), (∀ k, ¬ hasRoom (stateAt world i h k)) →
      launchCommand args sr env world fuel i h = none := by
  intro fuel
  induction fuel with
  | zero => intro i h _; rfl
  | succ n ih =>
    intro i h hfull
    rw [launchCommand_succ]
    have h0 : ¬ hasRoom h := hfull 0
    simp only [h0, if_false]
    exact ih (i + 1) (world i h) (fun k => hfull (k + 1))

/-- When no other goroutine acts, every pass sees the same handler. -/
theorem stateAt_quietWorld (h : Handler) : ∀ (k i : Nat), stateAt quietWorld i h k = h := by
  intro k
  induction k with
  | zero => intro i; rfl
  | succ k ih => intro i; exact ih (i + 1)

/-! ## Auxiliary facts about `waitForQuiet` -/

/-- A pass returns `nil` exactly when neither channel is ready and the
registry is empty. -/
theorem waitForQuietPoll_nil_iff (d : Time) (sel : Select) (h : Handler) :
    waitForQuietPoll d sel h = some none ↔
      sel.elapsed < d ∧ h.ctxDone = false ∧ h.processes = [] := by
  unfold waitForQuietPoll
  have hlt : sel.elapsed < d ↔ ¬ d ≤ sel.elapsed := not_le.symm
  by_cases h1 : d ≤ sel.elapsed <;> cases h2 : h.ctxDone <;> cases h3 : sel.pickAfter <;>
    cases h4 : h.processes <;> simp [h1, hlt]

/-- A pass goes around again when neither channel is ready and the registry is
not empty. -/
theorem waitForQuietPoll_again (d : Time) (sel : Select) (h : Handler)
    (h1 : sel.elapsed < d) (h2 : h.ctxDone = false) (h3 : h.processes ≠ []) :
    waitForQuietPoll d sel h = none := by
  unfold waitForQuietPoll
  have h1n : ¬ d ≤ sel.elapsed := not_le.mpr h1
  cases h4 : h.processes with
  | nil => exact absurd h4 h3
  | cons a t => simp [h1n, h2]

/-- A pass returns the timeout error when only the timer is ready. -/
theorem waitForQuietPoll_timeout (d : Time) (sel : Select) (h : Handler)
    (h1 : d ≤ sel.elapsed) (h2 : h.ctxDone = false) :
    waitForQuietPoll d sel h = some (some Error.couldNotSettle) := by
  simp [waitForQuietPoll, h1, h2]

/-- A pass returns the cancellation error when only the context is done. -/
theorem waitForQuietPoll_cancelled (d : Time) (sel : Select) (h : Handler)
    (h1 : sel.elapsed < d) (h2 : h.ctxDone = true) :
    waitForQuietPoll d sel h = some (some Error.contextClosed) := by
  have h1n : ¬ d ≤ sel.elapsed := not_le.mpr h1
  simp [waitForQuietPoll, h1n, h2]

/-- When pass `k` is the first that returns, the loop returns what pass `k`
returns, given fuel for more than `k` passes. -/
theorem waitForQuietLoop_first (d : Time) (sel : Nat → Select) (world : Nat → Handler → Handler) :
    ∀ (k fuel i : Nat) (h : Handler) (err : Option Error), k < fuel →
      (∀ j, j < k → waitForQuietPoll d (sel (i + j)) (stateAt world i h j) = none) →
      waitForQuietPoll d (sel (i + k)) (stateAt world i h k) = some err →
      waitForQuietLoop d sel world fuel i h = some (err, stateAt world i h k) := by
  intro k
  induction k with
  | zero =>
    intro fuel i h err hk _ hret
    obtain ⟨n, rfl⟩ : ∃ n, fuel = n + 1 := ⟨fuel - 1, by omega⟩
    simp only [stateAt, Nat.add_zero] at hret
    simp [waitForQuietLoop, hret, stateAt]
  | succ k ih =>
    intro fuel i h err hk hbefore hret
    obtain ⟨n, rfl⟩ : ∃ n, fuel = n + 1 := ⟨fuel - 1, by omega⟩
    have h0 : waitForQuietPoll d (sel i) h = none := by
      simpa [stateAt] using hbefore 0 (Nat.succ_pos k)
    simp only [waitForQuietLoop, h0]
    have e : ∀ j, i + (j + 1) = i + 1 + j := fun j => by omega
    refine ih n (i + 1) (world i h) err (by omega) ?_ ?_
    · intro j hj
      have := hbefore (j + 1) (Nat.succ_lt_succ hj)
      rw [e] at this
      exact this
    · rw [e] at hret
      exact hret

/-- A loop of `waitForQuiet` that has returned did so in some pass `k`, on the
handler that this pass saw, and all passes before went around again. -/
theorem waitForQuietLoop_some (d : Time) (sel : Nat → Select) (world : Nat → Handler → Handler) :
    ∀ (fuel i : Nat) (h : Handler) (err : Option Error) (h1 : Handler),
      waitForQuietLoop d sel world fuel i h = some (err, h1) →
      ∃ k, k < fuel ∧ h1 = stateAt world i h k ∧
        waitForQuietPoll d (sel (i + k)) h1 = some err ∧
        ∀ j, j < k → waitForQuietPoll d (sel (i + j)) (stateAt world i h j) = none := by
  intro fuel
  induction fuel with
  | zero => intro i h err h1 hret; simp [waitForQuietLoop] at hret
  | succ n ih =>
    intro i h err h1 hret
    cases hp : waitForQuietPoll d (sel i) h with
    | some e0 =>
      simp only [waitForQuietLoop, hp, Option.some.injEq, Prod.mk.injEq] at hret
      obtain ⟨rfl, rfl⟩ := hret
      exact ⟨0, Nat.succ_pos _, rfl, by simpa using hp,
        fun j hj => absurd hj (Nat.not_lt_zero j)⟩
    | none =>
      simp only [waitForQuietLoop, hp] at hret
      obtain ⟨k, hk, hst, hpoll, hbefore⟩ := ih (i + 1) (world i h) err h1 hret
      have e : ∀ j, i + (j + 1) = i + 1 + j := fun j => by omega
      refine ⟨k + 1, Nat.succ_lt_succ hk, hst, ?_, ?_⟩
      · rw [e]; exact hpoll
      · intro j hj
        cases j with
        | zero => simpa [stateAt] using hp
        | succ j =>
          rw [e]
          exact hbefore j (Nat.lt_of_succ_lt_succ hj)

/-- A pass on a cancelled context returns an error. -/
theorem waitForQuietPoll_of_done (d : Time) (sel : Select) (h : Handler)
    (h2 : h.ctxDone = true) :
    ∃ err, waitForQuietPoll d sel h = some (some err) := by
  unfold waitForQuietPoll
  by_cases h1 : d ≤ sel.elapsed <;> cases h3 : sel.pickAfter <;> simp [h1, h2]

/-- Taking and then freeing `waitMutex` gives back a handler whose mutex was
free. -/
theorem unlock_lock (h : Handler) (hfree : h.waitMutex = false) :
    { ({ h with waitMutex := true } : Handler) with waitMutex := false } = h := by
  cases h
  simp_all

/-- A handler that the other goroutines leave as it is stays the same at
every step. -/
theorem stateAt_fixed (world : Nat → Handler → Handler) (h : Handler)
    (hfix : ∀ i, world i h = h) : ∀ (k i : Nat), stateAt world i h k = h := by
  intro k
  induction k with
  | zero => intro i; rfl
  | succ k ih => intro i; simp only [stateAt, hfix]; exact ih (i + 1)

/-- A call of `waitForQuiet` stays blocked in `Lock` while another goroutine
holds `waitMutex` at every step. -/
theorem waitForQuiet_none_of_locked (d : Time) (sel : Nat → Select)
    (world : Nat → Handler → Handler) :
    ∀ (fuel i : Nat) (h : Handler), (∀ k, (stateAt world i h k).waitMutex = true) →
      waitForQuiet d sel world fuel i h = none := by
  intro fuel
  induction fuel with
  | zero => intro i h _; rfl
  | succ n ih =>
    intro i h hlocked
    have h0 : h.waitMutex = true := hlocked 0
    simp only [waitForQuiet, h0, if_true]
    exact ih (i + 1) (world i h) (fun k => hlocked (k + 1))

/-- A call of `waitForQuiet` that finds `waitMutex` held up to step `k` and
free at step `k` runs its loop from step `k` on, on the handler of that step
with the mutex taken, and frees the mutex when the loop returns. -/
theorem waitForQuiet_acquire (d : Time) (sel : Nat → Select)
    (world : Nat → Handler → Handler) :
    ∀ (k fuel i : Nat) (h : Handler), k < fuel →
      (∀ j, j < k → (stateAt world i h j).waitMutex = true) →
      (stateAt world i h k).waitMutex = false →
      waitForQuiet d sel world fuel i h =
        (waitForQuietLoop d sel world (fuel - k) (i + k)
            { stateAt world i h k with waitMutex := true }).map
          (fun r => (r.1, { r.2 with waitMutex := false })) := by
  intro k
  induction k with
  | zero =>
    intro fuel i h hk _ hfree
    obtain ⟨n, rfl⟩ : ∃ n, fuel = n + 1 := ⟨fuel - 1, by omega⟩
    have h0 : h.waitMutex = false := hfree
    simp only [waitForQuiet, h0, stateAt, Nat.add_zero, Nat.sub_zero]
    cases waitForQuietLoop d sel world (n + 1) i { h with waitMutex := true } with
    | none => rfl
    | some r => rfl
  | succ k ih =>
    intro fuel i h hk hbusy hfree
    obtain ⟨n, rfl⟩ : ∃ n, fuel = n + 1 := ⟨fuel - 1, by omega⟩
    have h0 : h.waitMutex = true := hbusy 0 (Nat.succ_pos k)
    simp only [waitForQuiet, h0, if_true]
    have e1 : i + (k + 1) = i + 1 + k := by omega
    have e2 : n + 1 - (k + 1) = n - k := by omega
    rw [e1, e2]
    exact ih n (i + 1) (world i h) (by omega)
      (fun j hj => hbusy (j + 1) (Nat.succ_lt_succ hj)) hfree

/-- When pass `k` is the first of a call of `launchCommand` that finds room,
the call returns what pass `k` yields, given fuel for more than `k` passes. -/
theorem launchCommand_first (args : List String) (sr : Payload) (env : Nat → LaunchEnv)
    (world : Nat → Handler → Handler) :
    ∀ (k fuel i : Nat) (h : Handler), k < fuel →
      (∀ j, j < k → ¬ hasRoom (stateAt world i h j)) → hasRoom (stateAt world i h k) →
      launchCommand args sr env world fuel i h =
        some ((launchAttempt (stateAt world i h k) args sr (env (i + k))).1,
              (launchAttempt (stateAt world i h k) args sr (env (i + k))).2.1) := by
  intro k
  induction k with
  | zero =>
    intro fuel i h hk _ hroom
    obtain ⟨n, rfl⟩ : ∃ n, fuel = n + 1 := ⟨fuel - 1, by omega⟩
    have h0 : hasRoom h := hroom
    rw [launchCommand_succ]
    simp only [h0, if_true, stateAt, Nat.add_zero]
  | succ k ih =>
    intro fuel i h hk hfull hroom
    obtain ⟨n, rfl⟩ : ∃ n, fuel = n + 1 := ⟨fuel - 1, by omega⟩
    have h0 : ¬ hasRoom h := hfull 0 (Nat.succ_pos k)
    rw [launchCommand_succ]
    simp only [h0, if_false]
    have e1 : i + (k + 1) = i + 1 + k := by omega
    rw [e1]
    exact ih n (i + 1) (world i h) (by omega)
      (fun j hj => hfull (j + 1) (Nat.succ_lt_succ hj)) hroom

/-! ## The bound on the registry -/

/-- Every atomic step keeps the invariant when the ceiling is positive. -/
theorem step_bounded (cfg : Config) (hN : 0 < cfg.MaxProcessors) (s : System) (a : Action)
    (hs : Bounded cfg s) : Bounded cfg (step s a) := by
  obtain ⟨hc, hl⟩ := hs
  cases a with
  | launch args sr env =>
    refine ⟨?_, ?_⟩
    · simp [step, (launchAttempt_frame s.h args sr env).1, hc]
    · rcases launchAttempt_processes s.h args sr env with h1 | ⟨hcap, p, hp⟩
      · simp only [step]; rw [h1]; exact hl
      · simp only [step]; rw [hp]
        rw [hc] at hcap
        simp only [List.length_append, List.length_singleton]
        omega
  | supSelect =>
    unfold step
    cases hsup : s.sup <;> simp only []
    · by_cases hd : s.h.ctxDone = true
      · simp only [hd, if_true]
        exact ⟨hc, by simpa [supervisorCancel] using hl⟩
      · simp only [hd]
        exact ⟨hc, hl⟩
    · exact ⟨hc, hl⟩
    · exact ⟨hc, hl⟩
  | supPass clk =>
    unfold step
    cases hsup : s.sup <;> simp only []
    · exact ⟨hc, hl⟩
    · refine ⟨by simpa [(supervisorPass_frame clk s.h).1] using hc, ?_⟩
      simp only [supervisorPass_processes]
      exact le_trans (List.length_filter_le _ _) hl
    · exact ⟨hc, hl⟩
  | cancel => exact ⟨hc, hl⟩
  | exit i status =>
    refine ⟨hc, ?_⟩
    simpa [step, reap] using hl

/-- Every interleaving keeps the invariant when the ceiling is positive. -/
theorem run_bounded (cfg : Config) (hN : 0 < cfg.MaxProcessors) (acts : List Action) :
    ∀ s : System, Bounded cfg s → Bounded cfg (run s acts) := by
  induction acts with
  | nil => intro s hs; exact hs
  | cons a rest ih =>
    intro s hs
    exact ih (step s a) (step_bounded cfg hN s a hs)

/-- C1: for every configuration with `MaxProcessors = N > 0`, in every state
that an interleaving of `launchCommand` attempts, supervisor steps (the
`select`, with its cancellation branch, and the reconciliation pass),
cancellations of the context and process exits reaches from the handler built
by `NewHandler`, the registry holds at most `N` records. -/
theorem registry_never_exceeds_MaxProcessors (cfg : Config) (ctxDone : Bool)
    (acts : List Action) (hN : 0 < cfg.MaxProcessors) :
    (run (System.init ctxDone cfg) acts).h.processes.length ≤ cfg.MaxProcessors :=
  (run_bounded cfg hN acts (System.init ctxDone cfg) ⟨rfl, Nat.zero_le _⟩).2

/-- With a ceiling of one, two admitted attempts, a cancellation and the
supervisor noticing it leave one record: the second attempt was turned away. -/
theorem registry_never_exceeds_MaxProcessors_witness :
    (run (System.init false { MaxProcessors := 1, DebugMode := false })
        [.launch ["testbin"] [] (envOK 11 0), .launch ["testbin"] [] (envOK 12 5),
         .cancel, .supSelect]).h.processes.length ≤ 1 ∧
    (run (System.init false { MaxProcessors := 1, DebugMode := false })
        [.launch ["testbin"] [] (envOK 11 0), .launch ["testbin"] [] (envOK 12 5),
         .cancel, .supSelect]).h.processes.length = 1 :=
  ⟨registry_never_exceeds_MaxProcessors { MaxProcessors := 1, DebugMode := false } false
      [.launch ["testbin"] [] (envOK 11 0), .launch ["testbin"] [] (envOK 12 5),
       .cancel, .supSelect] (by decide),
   by decide⟩

/-- C9: one reconciliation pass replaces the registry by exactly the
subsequence of its records whose process has not exited
(`cmd.ProcessState == nil`), in their original order, whatever their age; it
changes nothing else of the handler. -/
theorem supervisorPass_keeps_exactly_the_running (clk : PassClock) (h : Handler) :
    (supervisorPass clk h).1.processes =
        h.processes.filter (fun p => p.cmd.ProcessState == none) ∧
      ((supervisorPass clk h).1.processes).Sublist h.processes ∧
      (supervisorPass clk h).1.config = h.config ∧
      (supervisorPass clk h).1.ctxDone = h.ctxDone := by
  refine ⟨supervisorPass_processes clk h, ?_, supervisorPass_frame clk h⟩
  rw [supervisorPass_processes]
  exact List.filter_sublist _

/-- C10 as stated fails: a record whose process has exited and that was
created two minutes before the pass gets a diagnostic in the very pass that
removes it. -/
theorem diagnostic_for_exited_record :
    (record 7 0 (some 0)).cmd.ProcessState ≠ none ∧
    (supervisorPass (clockAt (2 * minute))
        { config := { MaxProcessors := 10, DebugMode := false }, ctxDone := false,
          processes := [record 7 0 (some 0)] }).1.processes = [] ∧
    (supervisorPass (clockAt (2 * minute))
        { config := { MaxProcessors := 10, DebugMode := false }, ctxDone := false,
          processes := [record 7 0 (some 0)] }).2 = [{ elapsed := 2 * minute, pid := 7 }] := by
  decide

/-- C10, amended: a reconciliation pass prints one diagnostic for each record
that was created more than a minute before the clock reading of its test, in
registry order, whether or not the process of the record has exited, and
nothing else. -/
theorem supervisorPass_diagnostics (clk : PassClock) (h : Handler) :
    (supervisorPass clk h).2 =
      (h.processes.enum.filter
          (fun ip => decide (ip.2.created < clk.check ip.1 - minute))).map
        (fun ip => { elapsed := clk.since ip.1 - ip.2.created,
                     pid := ip.2.cmd.Process.Pid }) := by
  unfold supervisorPass
  rw [passLoop_eq]
  simp only [List.nil_append]
  rfl

/-- C7 as stated fails: a hanging worker is launched while the supervisor
sleeps, survives the reconciliation pass, and the context is cancelled; once
the supervisor has noticed that, it has stopped, the record has been sent
`Kill`, and it is still in the registry. -/
theorem cancelled_registry_not_emptied :
    (run (System.init false { MaxProcessors := 10, DebugMode := false })
        [.supSelect, .launch ["testbin", "-hang"] [] (envOK 11 0),
         .supPass (clockAt 100000000), .cancel, .supSelect]).sup
      = SupervisorPC.stopped ∧
    (run (System.init false { MaxProcessors := 10, DebugMode := false })
        [.supSelect, .launch ["testbin", "-hang"] [] (envOK 11 0),
         .supPass (clockAt 100000000), .cancel, .supSelect]).h.processes
      = [{ cmd := { Path := "/go/bin/testbin", Args := ["testbin", "-hang"],
                    Process := { Pid := 11, killSent := true }, ProcessState := none },
           created := 0 }] := by
  decide

/-- C7, amended: when the supervisor observes cancellation it sends `Kill` to
every record of the registry and stops; the registry keeps the same records
in the same order (none is removed), and no later step of the stopped
supervisor changes anything. -/
theorem supervisor_cancel_kills_and_keeps (s : System) (hsel : s.sup = .atSelect)
    (hdone : s.h.ctxDone = true) :
    (step s .supSelect).sup = .stopped ∧
      (step s .supSelect).h.processes = s.h.processes.map Kill ∧
      (∀ p ∈ (step s .supSelect).h.processes, p.cmd.Process.killSent = true) ∧
      (step s .supSelect).h.processes.length = s.h.processes.length ∧
      step (step s .supSelect) .supSelect = step s .supSelect ∧
      ∀ clk, step (step s .supSelect) (.supPass clk) = step s .supSelect := by
  have e : step s .supSelect = { h := supervisorCancel s.h, sup := .stopped } := by
    simp [step, hsel, hdone]
  rw [e]
  refine ⟨rfl, rfl, ?_, ?_, rfl, fun _ => rfl⟩
  · intro p hp
    simp only [supervisorCancel, List.mem_map] at hp
    obtain ⟨q, _, rfl⟩ := hp
    rfl
  · simp [supervisorCancel]

/-- Two hanging workers are registered when the supervisor sees the
cancellation: both are sent `Kill`, both stay registered. -/
theorem supervisor_cancel_kills_and_keeps_witness :
    (step { h := { config := { MaxProcessors := 10, DebugMode := false }, ctxDone := true,
                   processes := [record 3 0 none, record 4 1 none] },
            sup := .atSelect } .supSelect).sup = .stopped ∧
    (step { h := { config := { MaxProcessors := 10, DebugMode := false }, ctxDone := true,
                   processes := [record 3 0 none, record 4 1 none] },
            sup := .atSelect } .supSelect).h.processes.length = 2 :=
  have t := supervisor_cancel_kills_and_keeps
    { h := { config := { MaxProcessors := 10, DebugMode := false }, ctxDone := true,
             processes := [record 3 0 none, record 4 1 none] },
      sup := .atSelect } rfl rfl
  ⟨t.1, t.2.2.2.1⟩

end Submitter

namespace Submitter

/-! ## `launchCommand`: empty command, effect on the registry, cancellation -/

/-- C2 on the code: in every handler state in which admission is possible,
`launchCommand` with an empty command list does not return an error: the
first pass faults on `args[0]` (index out of range), having started and
registered nothing. -/
theorem launchCommand_empty_args_faults (sr : Payload) (env : Nat → LaunchEnv)
    (world : Nat → Handler → Handler) (fuel i : Nat) (h : Handler) (hroom : hasRoom h) :
    launchAttempt h [] sr (env i) = (.fault (.outOfRange 0), h, []) ∧
      launchCommand [] sr env world (fuel + 1) i h =
        some (.fault (.outOfRange 0), h) := by
  have e : launchAttempt h [] sr (env i) = (.fault (.outOfRange 0), h, []) := by
    rcases launchAttempt_cases h [] sr (env i) with
      ⟨hno, _⟩ | ⟨_, _, e⟩ | ⟨_, _, _, e, _⟩ | ⟨_, _, _, h0, _⟩
    · exact absurd hroom hno
    · exact e
    · have hc : (decide (h.processes.length < h.config.MaxProcessors) ||
          h.config.MaxProcessors == 0) = true := by
        have := hroom
        unfold hasRoom at this
        simpa using this
      simp [launchAttempt, hc]
    · simp at h0
  refine ⟨e, ?_⟩
  rw [launchCommand_succ]
  simp [hroom, e]

/-- On a fresh handler with a ceiling of ten, `launchCommand` with an empty
command list faults. -/
theorem launchCommand_empty_args_faults_witness :
    launchAttempt (NewHandler false { MaxProcessors := 10, DebugMode := false }) [] []
        (envOK 11 0) =
      (.fault (.outOfRange 0),
        NewHandler false { MaxProcessors := 10, DebugMode := false }, []) ∧
    launchCommand [] [] (fun _ => envOK 11 0) quietWorld 1 0
        (NewHandler false { MaxProcessors := 10, DebugMode := false }) =
      some (.fault (.outOfRange 0),
        NewHandler false { MaxProcessors := 10, DebugMode := false }) :=
  launchCommand_empty_args_faults [] (fun _ => envOK 11 0) quietWorld 0 0
    (NewHandler false { MaxProcessors := 10, DebugMode := false }) (by decide)

/-- C3 as stated fails for a call that had to wait: with a ceiling of one and
one record registered, the call retries; the worker exits, the supervisor
removes its record, and the second pass returns `nil`.  The registry then
holds the new record alone, which is not the registry before the call with one
record appended. -/
theorem launchCommand_after_waiting :
    launchCommand ["testbin"] [] (fun _ => envOK 12 5) reapingWorld 2 0 (busyHandler 1 false) =
      some (.ret none,
        { busyHandler 1 false with
          processes := [{ cmd := CommandContext "/go/bin/testbin" "testbin" [] 12,
                          created := 5 }] }) ∧
    ¬ ∃ p : process,
      [({ cmd := CommandContext "/go/bin/testbin" "testbin" [] 12, created := 5 } : process)] =
        (busyHandler 1 false).processes ++ [p] := by
  refine ⟨by decide, ?_⟩
  rintro ⟨p, hp⟩
  have hlen := congrArg List.length hp
  simp [busyHandler] at hlen

/-- C3, amended: when `launchCommand` returns, it does so in a pass `k` that
found room in the handler `stateAt world i h k` it saw under `processMutex`;
this is the handler `h` before the call when the first pass finds room.  If
the call returns `nil`, the registry is the one of that handler with exactly
one record appended at the end, holding the command that `cmd.Start` started
in that pass (its path, the argument vector `args`, its pid, no exit status,
not killed) and the creation time read in that pass.  If the call returns an
error, the handler is the one that pass saw: no record is registered. -/
theorem launchCommand_registry_effect (args : List String) (sr : Payload)
    (env : Nat → LaunchEnv) (world : Nat → Handler → Handler) (fuel i : Nat)
    (h h1 : Handler) (out : Outcome)
    (hret : launchCommand args sr env world fuel i h = some (out, h1)) :
    ∃ k, k < fuel ∧ (hasRoom h → k = 0) ∧
      (out = .ret none →
        ∃ p, h1.processes = (stateAt world i h k).processes ++ [p] ∧
          p.cmd.Args = args ∧ p.cmd.Path = (env (i + k)).cmdPath ∧
          cmdStart (stateAt world i h k).ctxDone (env (i + k)) = .ok p.cmd.Process.Pid ∧
          p.cmd.ProcessState = none ∧ p.cmd.Process.killSent = false ∧
          p.created = (env (i + k)).now ∧
          h1.config = (stateAt world i h k).config ∧
          h1.ctxDone = (stateAt world i h k).ctxDone ∧
          h1.waitMutex = (stateAt world i h k).waitMutex) ∧
      (∀ err, out = .ret (some err) → h1 = stateAt world i h k) := by
  obtain ⟨k, hk, hbefore, hroom, ho, hh⟩ := launchCommand_some args sr env world fuel i h out h1 hret
  refine ⟨k, hk, ?_, ?_, ?_⟩
  · intro hr
    by_contra hne
    exact hbefore 0 (Nat.pos_of_ne_zero hne) hr
  · intro hnil
    rcases launchAttempt_cases (stateAt world i h k) args sr (env (i + k)) with
      ⟨_, e⟩ | ⟨_, _, e⟩ | ⟨_, _, _, e, _⟩ | ⟨_, name, pid, h0, hstart, e⟩
    · rw [e] at ho; rw [← ho] at hnil; cases hnil
    · rw [e] at ho; rw [← ho] at hnil; cases hnil
    · rw [e] at ho; rw [← ho] at hnil; cases hnil
    · rw [e] at hh
      refine ⟨{ cmd := CommandContext (env (i + k)).cmdPath name (restArgs args) pid,
                created := (env (i + k)).now },
        ?_, ?_, rfl, hstart, rfl, rfl, rfl, ?_, ?_, ?_⟩
      · rw [← hh]
      · exact cons_restArgs args name h0
      · rw [← hh]
      · rw [← hh]
      · rw [← hh]
  · intro err herr
    rcases launchAttempt_cases (stateAt world i h k) args sr (env (i + k)) with
      ⟨_, e⟩ | ⟨_, _, e⟩ | ⟨_, _, _, e, _⟩ | ⟨_, name, pid, h0, _, e⟩
    · rw [e] at ho; rw [← ho] at herr; cases herr
    · rw [e] at ho; rw [← ho] at herr; cases herr
    · rw [e] at hh; exact hh.symm
    · rw [e] at ho; rw [← ho] at herr; cases herr

/-- A handler with one record and room for ten: the call returns `nil` in its
first pass and the registry holds the old record followed by the new one,
which carries the pid that `cmd.Start` gave. -/
theorem launchCommand_registry_effect_witness :
    launchCommand ["testbin", "-sleep", "1"] [] (fun _ => envOK 12 5) quietWorld 1 0
        (busyHandler 10 false) =
      some (.ret none,
        { busyHandler 10 false with
          processes := [record 3 0 none,
            { cmd := CommandContext "/go/bin/testbin" "testbin" ["-sleep", "1"] 12,
              created := 5 }] }) ∧
    ∃ p : process,
      [record 3 0 none,
        { cmd := CommandContext "/go/bin/testbin" "testbin" ["-sleep", "1"] 12,
          created := 5 }] =
        (busyHandler 10 false).processes ++ [p] ∧
      p.cmd.Args = ["testbin", "-sleep", "1"] ∧ p.cmd.Path = "/go/bin/testbin" ∧
      p.cmd.Process.Pid = 12 ∧ p.created = 5 := by
  have hret : launchCommand ["testbin", "-sleep", "1"] [] (fun _ => envOK 12 5) quietWorld 1 0
        (busyHandler 10 false) =
      some (.ret none,
        { busyHandler 10 false with
          processes := [record 3 0 none,
            { cmd := CommandContext "/go/bin/testbin" "testbin" ["-sleep", "1"] 12,
              created := 5 }] }) := by
    decide
  obtain ⟨k, _, hk0, hnil, _⟩ :=
    launchCommand_registry_effect ["testbin", "-sleep", "1"] [] (fun _ => envOK 12 5)
      quietWorld 1 0 (busyHandler 10 false) _ _ hret
  have hk : k = 0 := hk0 (by decide)
  subst hk
  obtain ⟨p, hp, ha, hpath, hpid, _, _, hc, _⟩ := hnil rfl
  refine ⟨hret, p, hp, ha, hpath, ?_, hc⟩
  have hstart : cmdStart false (envOK 12 5) = .ok 12 := rfl
  have e : (Except.ok 12 : Except Error Nat) = .ok p.cmd.Process.Pid := hstart.symm.trans hpid
  injection e with e
  exact e.symm

/-- C6 as stated fails: with a ceiling of one, one registered record (already
sent `Kill`) and the context cancelled, a capacity check retries instead of
returning an error, and the call does not return while the record stays. -/
theorem launchCommand_ignores_cancellation :
    launchAttempt { config := { MaxProcessors := 1, DebugMode := false }, ctxDone := true,
                    processes := [Kill (record 3 0 none)] } ["testbin"] [] (envOK 12 5) =
      (.again, { config := { MaxProcessors := 1, DebugMode := false }, ctxDone := true,
                 processes := [Kill (record 3 0 none)] }, []) ∧
    ∀ fuel, launchCommand ["testbin"] [] (fun _ => envOK 12 5) quietWorld fuel 0
        { config := { MaxProcessors := 1, DebugMode := false }, ctxDone := true,
          processes := [Kill (record 3 0 none)] } = none := by
  refine ⟨by decide, fun fuel => ?_⟩
  apply launchCommand_none_of_full
  intro k
  rw [stateAt_quietWorld]
  decide

/-- C6, amended: a pass of `launchCommand` that finds the registry full
retries whatever the state of the context, so a waiting call does not return
while every pass finds the registry full; once a pass finds room and the
context is cancelled by then, that pass ends the call with an error, for a
non-empty command, and registers nothing. -/
theorem launchCommand_cancelled (args : List String) (sr : Payload) (env : Nat → LaunchEnv)
    (world : Nat → Handler → Handler) (i : Nat) (h : Handler) :
    (¬ hasRoom h → launchAttempt h args sr (env i) = (.again, h, [])) ∧
      ((∀ k, ¬ hasRoom (stateAt world i h k)) →
        ∀ fuel, launchCommand args sr env world fuel i h = none) ∧
      (∀ k, (∀ j, j < k → ¬ hasRoom (stateAt world i h j)) →
        hasRoom (stateAt world i h k) → (stateAt world i h k).ctxDone = true → args ≠ [] →
        ∃ err, ∀ fuel, k < fuel →
          launchCommand args sr env world fuel i h =
            some (.ret (some err), stateAt world i h k)) := by
  refine ⟨?_, ?_, ?_⟩
  · intro hno
    rcases launchAttempt_cases h args sr (env i) with
      ⟨_, e⟩ | ⟨hcap, _⟩ | ⟨hcap, _⟩ | ⟨hcap, _⟩
    · exact e
    · exact absurd hcap hno
    · exact absurd hcap hno
    · exact absurd hcap hno
  · intro hfull fuel
    exact launchCommand_none_of_full args sr env world fuel i h hfull
  · intro k hfull hroom hdone hargs
    rcases launchAttempt_cases (stateAt world i h k) args sr (env (i + k)) with
      ⟨hno, _⟩ | ⟨_, hnil, _⟩ | ⟨_, err, ev, e, _⟩ | ⟨_, _, _, _, hstart, _⟩
    · exact absurd hroom hno
    · exact absurd hnil hargs
    · refine ⟨err, fun fuel hk => ?_⟩
      rw [launchCommand_first args sr env world k fuel i h hk hfull hroom, e]
    · exfalso
      unfold cmdStart at hstart
      rw [hdone] at hstart
      cases hc : (env (i + k)).cmdErr <;> simp [hc] at hstart

/-- A cancelled pool with a ceiling of one and one record: the pass of a
waiting call retries; the call does not return while the record stays; and
when the worker exits and the supervisor removes the record, the second pass
finds room and ends the call with the error of `cmd.Start`. -/
theorem launchCommand_cancelled_witness :
    launchAttempt (busyHandler 1 true) ["testbin"] [] (envOK 12 5) =
      (.again, busyHandler 1 true, []) ∧
    (∀ fuel, launchCommand ["testbin"] [] (fun _ => envOK 12 5) quietWorld fuel 0
        (busyHandler 1 true) = none) ∧
    (∃ err, ∀ fuel, 1 < fuel →
      launchCommand ["testbin"] [] (fun _ => envOK 12 5) reapingWorld fuel 0
          (busyHandler 1 true) =
        some (.ret (some err), stateAt reapingWorld 0 (busyHandler 1 true) 1)) ∧
    launchCommand ["testbin"] [] (fun _ => envOK 12 5) reapingWorld 2 0 (busyHandler 1 true) =
      some (.ret (some Error.contextCanceled), { busyHandler 1 true with processes := [] }) :=
  ⟨(launchCommand_cancelled ["testbin"] [] (fun _ => envOK 12 5) reapingWorld 0
      (busyHandler 1 true)).1 (by decide),
   (launchCommand_cancelled ["testbin"] [] (fun _ => envOK 12 5) quietWorld 0
      (busyHandler 1 true)).2.1 (fun k => by rw [stateAt_quietWorld]; decide),
   (launchCommand_cancelled ["testbin"] [] (fun _ => envOK 12 5) reapingWorld 0
      (busyHandler 1 true)).2.2 1
      (fun j hj => by
        have hj0 : j = 0 := by omega
        subst hj0
        decide)
      (by decide) (by decide) (by decide),
   by decide⟩

end Submitter

namespace Submitter

/-! ## `waitForQuiet` -/

/-- What the loop of `waitForQuiet` does once the call holds `waitMutex`: it
returns `nil` only in a pass that found the registry empty while neither the
timer nor the context was ready.  If the registry is non-empty in every pass,
the loop returns the error "could not settle" once a pass finds the timeout
elapsed and no pass so far found the context cancelled, it returns the error
"context closed" once a pass finds the context cancelled and no pass so far
found the timeout elapsed, and it never returns `nil`. -/
theorem waitForQuietLoop_results (d : Time) (sel : Nat → Select)
    (world : Nat → Handler → Handler) (i : Nat) (h : Handler) :
    (∀ fuel h1, waitForQuietLoop d sel world fuel i h = some (none, h1) →
        ∃ k, k < fuel ∧ h1 = stateAt world i h k ∧ h1.processes = [] ∧
          h1.ctxDone = false ∧ (sel (i + k)).elapsed < d) ∧
    ((∀ k, (stateAt world i h k).processes ≠ []) →
      (∀ k, d ≤ (sel (i + k)).elapsed →
          (∀ j, j ≤ k → (stateAt world i h j).ctxDone = false) →
          ∀ fuel, k < fuel →
            ∃ h1, waitForQuietLoop d sel world fuel i h =
              some (some Error.couldNotSettle, h1)) ∧
      (∀ k, (stateAt world i h k).ctxDone = true →
          (∀ j, j ≤ k → (sel (i + j)).elapsed < d) →
          ∀ fuel, k < fuel →
            ∃ h1, waitForQuietLoop d sel world fuel i h =
              some (some Error.contextClosed, h1)) ∧
      (∀ fuel h1, waitForQuietLoop d sel world fuel i h ≠ some (none, h1))) := by
  have hnil : ∀ fuel h1, waitForQuietLoop d sel world fuel i h = some (none, h1) →
      ∃ k, k < fuel ∧ h1 = stateAt world i h k ∧ h1.processes = [] ∧
        h1.ctxDone = false ∧ (sel (i + k)).elapsed < d := by
    intro fuel h1 hret
    obtain ⟨k, hk, hst, hpoll, _⟩ := waitForQuietLoop_some d sel world fuel i h none h1 hret
    obtain ⟨ht, hc, hp⟩ := (waitForQuietPoll_nil_iff d (sel (i + k)) h1).mp hpoll
    exact ⟨k, hk, hst, hp, hc, ht⟩
  refine ⟨hnil, fun hne => ⟨?_, ?_, ?_⟩⟩
  · intro k hfire hctx fuel hk
    -- the first pass that finds the timer ready
    have hex : ∃ n, d ≤ (sel (i + n)).elapsed := ⟨k, hfire⟩
    classical
    have hk0 : Nat.find hex ≤ k := Nat.find_min' hex hfire
    refine ⟨stateAt world i h (Nat.find hex), ?_⟩
    apply waitForQuietLoop_first d sel world (Nat.find hex) fuel i h _ (by omega)
    · intro j hj
      apply waitForQuietPoll_again
      · exact not_le.mp (Nat.find_min hex hj)
      · exact hctx j (by omega)
      · exact hne j
    · exact waitForQuietPoll_timeout d _ _ (Nat.find_spec hex) (hctx _ hk0)
  · intro k hdone htime fuel hk
    have hex : ∃ n, (stateAt world i h n).ctxDone = true := ⟨k, hdone⟩
    classical
    have hk0 : Nat.find hex ≤ k := Nat.find_min' hex hdone
    refine ⟨stateAt world i h (Nat.find hex), ?_⟩
    apply waitForQuietLoop_first d sel world (Nat.find hex) fuel i h _ (by omega)
    · intro j hj
      apply waitForQuietPoll_again
      · exact htime j (by omega)
      · simpa using Nat.find_min hex hj
      · exact hne j
    · exact waitForQuietPoll_cancelled d _ _ (htime _ hk0) (Nat.find_spec hex)
  · intro fuel h1 hret
    obtain ⟨k, _, hst, hp, _⟩ := hnil fuel h1 hret
    exact hne k (hst ▸ hp)

/-- C4 on the code: in the pool of `TestSupervisorHang` (one hanging worker
standing for the ten) a `launchCommand` call for one more worker sits in its
retry loop and holds `waitMutex`.  That call never returns, each of its passes
leaves the handler as it is, and so a call of `waitForQuiet` never gets past
`h.waitMutex.Lock()`: whatever the timeout, the clock and the state of the
context, it returns nothing, neither "could not settle" nor "context closed",
although the registry is non-empty throughout. -/
theorem waitForQuiet_blocked_behind_launchCommand :
    (∀ ctxDone, (waitingPool ctxDone).waitMutex = true ∧
      (waitingPool ctxDone).processes ≠ [] ∧ ¬ hasRoom (waitingPool ctxDone)) ∧
    (∀ ctxDone fuel, launchCommand ["testbin"] [] (fun _ => envOK 12 5) quietWorld fuel 0
        (waitingPool ctxDone) = none) ∧
    (∀ ctxDone i, retryingWorld i (waitingPool ctxDone) = waitingPool ctxDone) ∧
    (∀ ctxDone d sel fuel,
      waitForQuiet d sel retryingWorld fuel 0 (waitingPool ctxDone) = none) := by
  have hfix : ∀ ctxDone i, retryingWorld i (waitingPool ctxDone) = waitingPool ctxDone := by
    intro ctxDone i
    have hpass : ∀ c, (launchAttempt (waitingPool c) ["testbin"] [] (envOK 12 5)).2.1 =
        waitingPool c := by decide
    exact hpass ctxDone
  refine ⟨?_, ?_, hfix, ?_⟩
  · intro ctxDone
    cases ctxDone <;> decide
  · intro ctxDone fuel
    apply launchCommand_none_of_full
    intro k
    rw [stateAt_quietWorld]
    cases ctxDone <;> decide
  · intro ctxDone d sel fuel
    apply waitForQuiet_none_of_locked
    intro k
    rw [stateAt_fixed retryingWorld _ (hfix ctxDone)]
    cases ctxDone <;> rfl

/-- C5 as stated fails: on a handler with an empty registry whose context is
cancelled, `waitForQuiet` returns the error "context closed", and no call
returns `nil`, whatever the timeout and the clock. -/
theorem waitForQuiet_idle_but_cancelled :
    (NewHandler true { MaxProcessors := 10, DebugMode := false }).processes = [] ∧
    waitForQuiet 1000000000 (fun _ => { elapsed := 0, pickAfter := false }) quietWorld 1 0
        (NewHandler true { MaxProcessors := 10, DebugMode := false }) =
      some (some Error.contextClosed,
        NewHandler true { MaxProcessors := 10, DebugMode := false }) ∧
    ∀ (d : Time) (sel : Nat → Select) (fuel : Nat) (h1 : Handler),
      waitForQuiet d sel quietWorld fuel 0
        (NewHandler true { MaxProcessors := 10, DebugMode := false }) ≠ some (none, h1) := by
  refine ⟨rfl, by decide, ?_⟩
  intro d sel fuel h1 hret
  cases fuel with
  | zero => simp [waitForQuiet] at hret
  | succ n =>
    obtain ⟨err, hp⟩ := waitForQuietPoll_of_done d (sel 0)
      { NewHandler true { MaxProcessors := 10, DebugMode := false } with waitMutex := true } rfl
    simp [waitForQuiet, waitForQuietLoop, NewHandler] at hret hp
    rw [hp] at hret
    simp at hret

/-- C5, amended: every call of `waitForQuiet` whose first pass (made at step
`k`, when the call gets `waitMutex`) finds the registry empty, the context
not cancelled and the timeout not yet elapsed returns `nil` in that pass, and
it returns the handler as it found it; so the registry is still empty and the
next such call succeeds as well. -/
theorem waitForQuiet_idle (d : Time) (sel : Nat → Select) (world : Nat → Handler → Handler)
    (k fuel i : Nat) (h : Handler) (hk : k < fuel)
    (hbusy : ∀ j, j < k → (stateAt world i h j).waitMutex = true)
    (hfree : (stateAt world i h k).waitMutex = false)
    (hidle : (stateAt world i h k).processes = [])
    (hctx : (stateAt world i h k).ctxDone = false)
    (htime : (sel (i + k)).elapsed < d) :
    waitForQuiet d sel world fuel i h = some (none, stateAt world i h k) := by
  rw [waitForQuiet_acquire d sel world k fuel i h hk hbusy hfree]
  obtain ⟨m, hm⟩ : ∃ m, fuel - k = m + 1 := ⟨fuel - k - 1, by omega⟩
  have hp : waitForQuietPoll d (sel (i + k))
      { stateAt world i h k with waitMutex := true } = some none :=
    (waitForQuietPoll_nil_iff d (sel (i + k)) _).mpr ⟨htime, hctx, hidle⟩
  rw [hm]
  simp only [waitForQuietLoop, hp, Option.map_some']
  rw [unlock_lock _ hfree]

/-- A fresh handler is idle: a call with a timeout of one second succeeds, and
so does a second call, with a timeout of one minute, on the handler that the
first one returned. -/
theorem waitForQuiet_idle_witness :
    waitForQuiet 1000000000 (fun _ => { elapsed := 0, pickAfter := false }) quietWorld 1 0
        (NewHandler false { MaxProcessors := 10, DebugMode := true }) =
      some (none, NewHandler false { MaxProcessors := 10, DebugMode := true }) ∧
    waitForQuiet (60 * 1000000000) (fun _ => { elapsed := 7, pickAfter := true }) quietWorld
        1 0 (NewHandler false { MaxProcessors := 10, DebugMode := true }) =
      some (none, NewHandler false { MaxProcessors := 10, DebugMode := true }) :=
  ⟨waitForQuiet_idle 1000000000 (fun _ => { elapsed := 0, pickAfter := false }) quietWorld 0 1 0
      (NewHandler false { MaxProcessors := 10, DebugMode := true }) (by decide)
      (fun j hj => absurd hj (Nat.not_lt_zero j)) rfl rfl rfl (by decide),
   waitForQuiet_idle (60 * 1000000000) (fun _ => { elapsed := 7, pickAfter := true })
      quietWorld 0 1 0 (NewHandler false { MaxProcessors := 10, DebugMode := true }) (by decide)
      (fun j hj => absurd hj (Nat.not_lt_zero j)) rfl rfl rfl (by decide)⟩

end Submitter

namespace Secret

/-! ## `Decrypt` undoes `Encrypt` -/

/-- C8: for every message value `m` and every key of 16, 24 or 32 bytes, if
`NewMessage(m, false).Encrypt(key)` returns `(c, nil)`, then `c` is flagged
encrypted, its value is the nonce followed by the sealed text, and
`c.Decrypt(key)` returns `(p, nil)` with `p.Value()` equal to `m` and `p`
not flagged encrypted, given that `Open` inverts `Seal` for this key, nonce
and message. -/
theorem Decrypt_Encrypt (gcm : GCM) (rand m key : List Byte) (c : Message)
    (hkey : key.length = 16 ∨ key.length = 24 ∨ key.length = 32)
    (henc : (NewMessage m false).Encrypt gcm rand key = (c, none))
    (hopen : gcm.Open key (rand.take NonceSize) (gcm.Seal key (rand.take NonceSize) m)
      = some m) :
    c.Encrypted = true ∧
      c.Value = rand.take NonceSize ++ gcm.Seal key (rand.take NonceSize) m ∧
      (rand.take NonceSize).length = NonceSize ∧
      (c.Decrypt gcm key).2 = none ∧
      (c.Decrypt gcm key).1.Value = m ∧
      (c.Decrypt gcm key).1.Encrypted = false := by
  have hc : NewCipher key = .ok key := by simp [NewCipher, hkey]
  by_cases hr : rand.length < NonceSize
  · simp [Message.Encrypt, hc, ReadFull, hr] at henc
  · have hlen : (rand.take NonceSize).length = NonceSize := by
      rw [List.length_take]; omega
    simp only [Message.Encrypt, hc, ReadFull, hr, if_false, NewMessage, Prod.mk.injEq,
      and_true] at henc
    subst henc
    have hnot : ¬ (rand.take NonceSize ++ gcm.Seal key (rand.take NonceSize) m).length
        < NonceSize := by
      rw [List.length_append, hlen]; omega
    have htake : (rand.take NonceSize ++ gcm.Seal key (rand.take NonceSize) m).take NonceSize
        = rand.take NonceSize := by
      rw [List.take_append_of_le_length (le_of_eq hlen.symm), List.take_of_length_le
        (le_of_eq hlen)]
    have hdrop : (rand.take NonceSize ++ gcm.Seal key (rand.take NonceSize) m).drop NonceSize
        = gcm.Seal key (rand.take NonceSize) m := by
      rw [List.drop_append_of_le_length (le_of_eq hlen.symm), List.drop_of_length_le
        (le_of_eq hlen), List.nil_append]
    have hdec : Message.Decrypt gcm
        { value := rand.take NonceSize ++ gcm.Seal key (rand.take NonceSize) m,
          encrypted := true } key = ({ value := m, encrypted := false }, none) := by
      unfold Message.Decrypt
      simp only [hc]
      rw [if_neg hnot]
      simp only [htake, hdrop, hopen]
    refine ⟨rfl, rfl, hlen, ?_, ?_, ?_⟩ <;> rw [hdec] <;> rfl

/-- The message "secret" under a key of thirty-two bytes `a`, as in
`TestSecretCrypto`, with the toy cipher: encryption yields the twelve nonce
bytes followed by the sealed text, and decryption gives the message back. -/
theorem Decrypt_Encrypt_witness :
    (NewMessage [115, 101, 99, 114, 101, 116] false).Encrypt toyGCM
        [1, 2, 3, 4, 5, 6, 7, 8, 9, 10, 11, 12, 13] (List.replicate 32 97) =
      ({ value := [1, 2, 3, 4, 5, 6, 7, 8, 9, 10, 11, 12, 115, 101, 99, 114, 101, 116, 97],
         encrypted := true }, none) ∧
    (Message.Decrypt toyGCM
        { value := [1, 2, 3, 4, 5, 6, 7, 8, 9, 10, 11, 12, 115, 101, 99, 114, 101, 116, 97],
          encrypted := true } (List.replicate 32 97)).1.Value
      = [115, 101, 99, 114, 101, 116] :=
  ⟨by decide,
   (Decrypt_Encrypt toyGCM [1, 2, 3, 4, 5, 6, 7, 8, 9, 10, 11, 12, 13]
      [115, 101, 99, 114, 101, 116] (List.replicate 32 97)
      { value := [1, 2, 3, 4, 5, 6, 7, 8, 9, 10, 11, 12, 115, 101, 99, 114, 101, 116, 97],
        encrypted := true }
      (by decide) (by decide) (by decide)).2.2.2.2.1⟩

end Secret
